import Mathlib

/-!
Verification of the rolling log-file writer (`lumberjack` package) and small
utility/HTTP-middleware functions of the `fileserver-go` repository.

The Go code is shallowly embedded:

* machine integers (`int`, `int64`) are modelled by `Nat`/`Int` (all sizes and
  counters in the program are non-negative);
* the filesystem visible to one `Logger` is an explicit value: an association
  list from file names to file contents (lists of bytes), plus the symbolic
  link maintained at the destination path;
* the mocked package globals (`currentTime`, `megabyte`, `os_Stat`) become
  explicit parameters, exactly as the tests treat them;
* `time.Time` is modelled by its broken-down wall-clock fields (year, month,
  day and nanoseconds elapsed since the same day's midnight): the rotation
  loop of `processName` only ever compares instants of the current day, so
  this representation is faithful for every comparison the code performs;
* the success path of filesystem calls is modelled (the code's error paths
  for `MkdirAll`/`OpenFile`/`Symlink` abort without touching logger state);
  for the buffered write/flush of `Logger.Write` a separate definition keeps
  the I/O outcomes as parameters, so error propagation can be analysed.
-/

/-! ## Decimal formatting (models Go's `%d` and the `20060102_150405` layout) -/

/-- Little-endian decimal digits of a positive number, as characters; the
first argument is fuel (`n` itself suffices, since `n / 10 < n`). -/
def digitsAux : Nat → Nat → List Char
  | _, 0 => []
  | 0, _ => []
  | fuel + 1, n + 1 => Nat.digitChar ((n + 1) % 10) :: digitsAux fuel ((n + 1) / 10)

/-- Decimal representation of a natural number. Models Go's `fmt` verb `%d`
(and `strconv.Itoa`) for the non-negative values that reach it. -/
def natDec (n : Nat) : String :=
  if n = 0 then "0" else String.mk (digitsAux n n).reverse

/-- Decode a digit character back to its value. -/
def charVal (c : Char) : Nat := c.toNat - 48

/-- Value of a little-endian digit-character list. -/
def undigits : List Char → Nat
  | [] => 0
  | c :: cs => charVal c + 10 * undigits cs

theorem charVal_digitChar {d : Nat} (h : d < 10) : charVal (Nat.digitChar d) = d := by
  interval_cases d <;> decide

theorem digitsAux_undigits : ∀ fuel n, n ≤ fuel → undigits (digitsAux fuel n) = n := by
  intro fuel
  induction fuel with
  | zero =>
    intro n hn
    interval_cases n
    decide
  | succ fuel ih =>
    intro n hn
    match n with
    | 0 => rfl
    | n + 1 =>
      have hdiv : (n + 1) / 10 ≤ fuel := by
        have h1 : (n + 1) / 10 < n + 1 := Nat.div_lt_self (Nat.succ_pos n) (by decide)
        omega
      have hmod : (n + 1) % 10 < 10 := Nat.mod_lt _ (by decide)
      show charVal (Nat.digitChar ((n + 1) % 10)) + 10 * undigits (digitsAux fuel ((n + 1) / 10)) = n + 1
      rw [charVal_digitChar hmod, ih _ hdiv]
      omega

theorem digitsAux_ne_nil (fuel n : Nat) (h1 : 0 < n) (h2 : 0 < fuel) :
    digitsAux fuel n ≠ [] := by
  match fuel, n with
  | fuel + 1, n + 1 => simp [digitsAux]

theorem natDec_injective : Function.Injective natDec := by
  intro a b hab
  unfold natDec at hab
  by_cases ha : a = 0 <;> by_cases hb : b = 0 <;> simp [ha, hb] at hab ⊢
  · -- a = 0, b ≠ 0 : "0" = mk (digitsAux b b).reverse
    exfalso
    have hb' : 0 < b := Nat.pos_of_ne_zero hb
    have : ('0' :: []) = (digitsAux b b).reverse := congrArg String.data hab
    have hu : undigits (digitsAux b b) = b := digitsAux_undigits b b le_rfl
    have : digitsAux b b = ['0'] := by
      have := this.symm
      have hrev : (digitsAux b b).reverse.reverse = ['0'].reverse := by rw [← this]
      simpa using hrev
    rw [this] at hu
    simp [undigits, charVal] at hu
    omega
  · exfalso
    have ha' : 0 < a := Nat.pos_of_ne_zero ha
    have : (digitsAux a a).reverse = ('0' :: []) := congrArg String.data hab
    have hu : undigits (digitsAux a a) = a := digitsAux_undigits a a le_rfl
    have hda : digitsAux a a = ['0'] := by
      have hrev : (digitsAux a a).reverse.reverse = ['0'].reverse := by rw [this]
      simpa using hrev
    rw [hda] at hu
    simp [undigits, charVal] at hu
    omega
  · have hdata : (digitsAux a a).reverse = (digitsAux b b).reverse := congrArg String.data hab
    have : digitsAux a a = digitsAux b b := by
      have hrev := congrArg List.reverse hdata
      simpa using hrev
    have hua : undigits (digitsAux a a) = a := digitsAux_undigits a a le_rfl
    have hub : undigits (digitsAux b b) = b := digitsAux_undigits b b le_rfl
    rw [this, hub] at hua
    exact hua.symm

theorem natDec_length_pos (n : Nat) : 0 < (natDec n).length := by
  unfold natDec
  by_cases h : n = 0
  · rw [if_pos h]; decide
  · simp only [h, if_false]
    have : digitsAux n n ≠ [] := digitsAux_ne_nil n n (Nat.pos_of_ne_zero h) (Nat.pos_of_ne_zero h)
    have : (digitsAux n n).reverse ≠ [] := by simpa using this
    show 0 < (String.mk (digitsAux n n).reverse).length
    cases hrev : (digitsAux n n).reverse with
    | nil => exact absurd hrev this
    | cons c cs => simp [String.length, hrev]

/-- Zero-pad to two characters; models the `15` / `04` / `05` / `01` / `02`
components of the Go time layout `20060102_150405`. -/
def pad2 (n : Nat) : String := if n < 10 then "0" ++ natDec n else natDec n

/-- Zero-pad to four characters; models the `2006` (year) component. -/
def pad4 (n : Nat) : String :=
  if n < 10 then "000" ++ natDec n
  else if n < 100 then "00" ++ natDec n
  else if n < 1000 then "0" ++ natDec n
  else natDec n

/-- Format a broken-down instant with the layout `20060102_150405`
(`timeFormat` in the source). `sodNs` is nanoseconds since that day's
midnight; Go's layout prints whole seconds. -/
def formatTS (year month day sodNs : Nat) : String :=
  let s := sodNs / 1000000000
  pad4 year ++ pad2 month ++ pad2 day ++ "_" ++
    pad2 (s / 3600) ++ pad2 (s % 3600 / 60) ++ pad2 (s % 60)

theorem pad2_length_pos (n : Nat) : 0 < (pad2 n).length := by
  unfold pad2
  by_cases h : n < 10 <;> simp [h, String.length_append]
  · have := natDec_length_pos n
    omega
  · exact natDec_length_pos n

theorem formatTS_length_ge (year month day sodNs : Nat) :
    3 ≤ (formatTS year month day sodNs).length := by
  unfold formatTS
  simp only [String.length_append]
  have h1 := pad2_length_pos month
  have h2 := pad2_length_pos day
  have h3 : (("_" : String)).length = 1 := by decide
  omega

/-! ## Path helpers (model `filepath.Dir`, `Base`, `Ext`, `Join` for the
already-clean paths the logger receives) -/

/-- Split a character list at the last occurrence of `c`:
`some (before, after)` when `c` occurs, `none` otherwise. -/
def splitLast (c : Char) : List Char → Option (List Char × List Char)
  | [] => none
  | x :: xs =>
    match splitLast c xs with
    | some (b, a) => some (x :: b, a)
    | none => if x = c then some ([], xs) else none

theorem splitLast_eq (c : Char) : ∀ (l b a : List Char),
    splitLast c l = some (b, a) → l = b ++ c :: a := by
  intro l
  induction l with
  | nil => intro b a h; simp [splitLast] at h
  | cons x xs ih =>
    intro b a h
    simp only [splitLast] at h
    cases hs : splitLast c xs with
    | some p =>
      obtain ⟨b', a'⟩ := p
      rw [hs] at h
      simp only [Option.some.injEq, Prod.mk.injEq] at h
      obtain ⟨hb, ha⟩ := h
      subst hb; subst ha
      simp [ih b' a' hs]
    | none =>
      rw [hs] at h
      by_cases hx : x = c
      · simp [hx] at h
        obtain ⟨hb, ha⟩ := h
        subst hb; subst ha
        simp [hx]
      · simp [hx] at h

/-- `filepath.Dir` for the paths at hand: everything before the last slash,
or `"."` when there is no slash. -/
def dirOf (s : String) : String :=
  match splitLast '/' s.data with
  | some (b, _) => String.mk b
  | none => "."

/-- `filepath.Base` for the paths at hand: everything after the last slash. -/
def baseOf (s : String) : String :=
  match splitLast '/' s.data with
  | some (_, a) => String.mk a
  | none => s

/-- `filepath.Ext`: the suffix of the base name starting at its last dot
(including the dot), or `""` when the base name has no dot. -/
def extOf (base : String) : String :=
  match splitLast '.' base.data with
  | some (_, a) => String.mk ('.' :: a)
  | none => ""

/-- The Go expression `filename[:len(filename)-len(ext)]`: the base name with
its extension removed. -/
def stemOf (base : String) : String :=
  match splitLast '.' base.data with
  | some (b, _) => String.mk b
  | none => base

/-- `filepath.Join` of a clean directory and a bare file name. -/
def joinPath (dir name : String) : String :=
  if dir = "" ∨ dir = "." then name else dir ++ "/" ++ name

/-! ## The Logger and its filesystem environment -/

/-- Static configuration of a `lumberjack.Logger`, together with the package
globals the tests mock out (`megabyte`; `currentTime` and the filesystem are
passed explicitly to each operation). `argv0Base`/`tempDir` stand for
`filepath.Base(os.Args[0])` and `os.TempDir()`. -/
structure Logger where
  Filename : String
  RotationTime : Int
  MaxSize : Int
  LocalTime : Bool
  megabyte : Nat
  argv0Base : String
  tempDir : String

/-- A broken-down wall-clock instant (the result of `Year()`, `Month()`,
`Day()` on `currentTime()` after the `LocalTime` zone selection), together
with the nanoseconds elapsed since that day's midnight. All the time
arithmetic `processName` performs stays within one day, so instants are
compared through `sodNs` alone. -/
structure GoTime where
  year : Nat
  month : Nat
  day : Nat
  sodNs : Nat

/-- Contents are byte lists; a file's `os.Stat` size is its length. -/
abbrev FileData := List Nat

/-- The directory slice of the filesystem a single Logger touches: regular
files (name, content) and the symbolic link maintained at the destination
path (`none` when no link exists there). -/
structure FS where
  files : List (String × FileData)
  link : Option String

/-- The mutable state of a Logger plus its filesystem, with three ghost
fields used only by theorem statements: `lastOpened` records the file most
recently assigned to `l.file`, `handleWritten` counts bytes written since
`l.file` was last assigned, `rotations` counts calls of `Logger.rotate`. -/
structure LJState where
  fs : FS
  file : Option String
  size : Nat
  lastOpened : Option String
  handleWritten : Nat
  rotations : Nat

/-- `os.Stat` restricted to the information the logger uses: `none` models
`os.IsNotExist`, `some n` a successful stat of a file of size `n`. -/
def statSize (fs : FS) (name : String) : Option Nat :=
  (fs.files.lookup name).map List.length

/-- Overwrite (or create) the regular file `name` with content `c`. -/
def setFile (files : List (String × FileData)) (name : String) (c : FileData) :
    List (String × FileData) :=
  (name, c) :: files.filter (fun p => !(p.1 == name))

/-- `Logger.get_filename`. -/
def Logger.get_filename (l : Logger) : String :=
  if l.Filename ≠ "" then l.Filename
  else joinPath l.tempDir (l.argv0Base ++ "-lumberjack.log")

/-- `Logger.get_max_size` (bytes): `defaultMaxSize = 100` when `MaxSize ≤ 0`. -/
def Logger.get_max_size (l : Logger) : Nat :=
  if l.MaxSize ≤ 0 then 100 * l.megabyte else l.MaxSize.toNat * l.megabyte

/-- `Logger.get_rotation_time` (minutes): `defaultRotationTime = 5` when
`RotationTime ≤ 0`. -/
def Logger.get_rotation_time (l : Logger) : Nat :=
  if l.RotationTime ≤ 0 then 5 else l.RotationTime.toNat

/-- `Logger.get_dir`. -/
def Logger.get_dir (l : Logger) : String := dirOf l.get_filename

/-! ## Name generation (`Logger.processName`) -/

/-- The loop of `processName`: starting from the base datetime (midnight),
keep adding the rotation window `W` while the next boundary is still strictly
before the current instant `t`. `rd` and `t` are nanoseconds since midnight;
the final argument is fuel, consumed only when a step is taken, and `t` steps
always suffice since `W ≥ 1`. -/
def bucketLoop (W t : Nat) : Nat → Nat → Nat
  | rd, 0 => rd
  | rd, fuel + 1 => if rd + W < t then bucketLoop W t (rd + W) fuel else rd

/-- The rotation-bucket instant (ns since midnight) for window `W` (ns) and
current instant `t` (ns since midnight). -/
def rotationBucket (W t : Nat) : Nat := bucketLoop W t 0 t

/-- The timestamp string `processName` inserts between stem and extension. -/
def timestampStr (l : Logger) (t : GoTime) : String :=
  if l.get_rotation_time > 0 then
    formatTS t.year t.month t.day
      (rotationBucket (l.get_rotation_time * 60 * 1000000000) t.sodNs)
  else
    formatTS t.year t.month t.day t.sodNs

/-- A backup name `<dir>/<stem>-<mid><ext>` built from the destination path. -/
def nameWithMid (l : Logger) (mid : String) : String :=
  joinPath (dirOf l.get_filename)
    (stemOf (baseOf l.get_filename) ++ "-" ++ mid ++ extOf (baseOf l.get_filename))

/-- The base candidate `<dir>/<stem>-<timestamp><ext>`. -/
def baseCandidate (l : Logger) (t : GoTime) : String := nameWithMid l (timestampStr l t)

/-- The alternate candidate `<dir>/<stem>-<timestamp>_<n><ext>`. -/
def idxName (l : Logger) (t : GoTime) (n : Nat) : String :=
  nameWithMid l (timestampStr l t ++ "_" ++ natDec n)

/-- The `for true` search of `processName`, with fuel: the Go loop is
unbounded, but over a finite directory `fs.files.length + 1` probes always
find a name that exits the loop (`searchIdx_fuel_sufficient`), so the fuel
base case is never reached from `processName`. -/
def searchIdx (l : Logger) (t : GoTime) (fs : FS) (write_length : Nat) :
    Nat → Nat → String
  | counter, 0 => idxName l t counter
  | counter, fuel + 1 =>
    match statSize fs (idxName l t counter) with
    | none => idxName l t counter
    | some sz =>
      if sz + write_length > l.get_max_size then
        searchIdx l t fs write_length (counter + 1) fuel
      else idxName l t counter

/-- `Logger.processName`: the backup file name for the current instant, the
given filesystem and a pending write of `write_length` bytes. -/
def Logger.processName (l : Logger) (t : GoTime) (fs : FS) (write_length : Nat) :
    String :=
  let name := baseCandidate l t
  match statSize fs name with
  | none => name
  | some sz =>
    if sz + write_length > l.get_max_size then
      searchIdx l t fs write_length 2 (fs.files.length + 1)
    else name

/-! ## File management (`openNew`, `openExistingOrNew`, `rotate`, `close`) -/

/-- `Logger.openNew` (success path): resolve the name for pending length 0;
append to it if it exists (`O_APPEND`), otherwise create it empty
(`O_TRUNC`); remove any old destination link and re-point the destination
symlink at the opened file; adopt the opened file's size. -/
def Logger.openNew (l : Logger) (t : GoTime) (st : LJState) : LJState :=
  match statSize st.fs (l.processName t st.fs 0) with
  | some sz =>
    { fs := { files := st.fs.files, link := some (l.processName t st.fs 0) },
      file := some (l.processName t st.fs 0), size := sz,
      lastOpened := some (l.processName t st.fs 0), handleWritten := 0,
      rotations := st.rotations }
  | none =>
    { fs := { files := setFile st.fs.files (l.processName t st.fs 0) [],
              link := some (l.processName t st.fs 0) },
      file := some (l.processName t st.fs 0), size := 0,
      lastOpened := some (l.processName t st.fs 0), handleWritten := 0,
      rotations := st.rotations }

/-- `Logger.close` (success path). -/
def Logger.closeOp (st : LJState) : LJState := { st with file := none }

/-- `Logger.rotate` (success path): close, then open a new file. The ghost
`rotations` counter records the call. -/
def Logger.rotate (l : Logger) (t : GoTime) (st : LJState) : LJState :=
  l.openNew t { (Logger.closeOp st) with rotations := st.rotations + 1 }

/-- `Logger.openExistingOrNew` (success path): open the resolved name for
append when it exists and the pending write keeps it strictly below the
maximum size; rotate when the write would reach or exceed it; open fresh
when it does not exist. -/
def Logger.openExistingOrNew (l : Logger) (t : GoTime) (st : LJState)
    (writeLen : Nat) : LJState :=
  match statSize st.fs (l.processName t st.fs writeLen) with
  | none => l.openNew t st
  | some sz =>
    if sz + writeLen ≥ l.get_max_size then
      l.rotate t st
    else
      { st with file := some (l.processName t st.fs writeLen), size := sz,
                lastOpened := some (l.processName t st.fs writeLen),
                handleWritten := 0 }

/-! ## The Write operation -/

/-- Write errors surfaced by the model. -/
inductive WErr where
  | sizeExceeded
deriving DecidableEq

/-- Lines 113–121 of `Write`: open the target (possibly rotating inside
`openExistingOrNew`), then rotate once more if the size counter plus the
pending length would exceed the maximum. -/
def Logger.openPhase (l : Logger) (t : GoTime) (st : LJState) (writeLen : Nat) :
    LJState :=
  if (l.openExistingOrNew t st writeLen).size + writeLen > l.get_max_size then
    l.rotate t (l.openExistingOrNew t st writeLen)
  else l.openExistingOrNew t st writeLen

/-- Append `p` to the currently open file and add the written count to the
size counter (the buffered write plus flush, on the success path). With no
open handle Go would dereference nil; that case is unreachable after
`openPhase` and is modelled as a no-op. -/
def appendToFile (st : LJState) (p : FileData) : LJState :=
  match st.file with
  | none => st
  | some name =>
    let oldc := (st.fs.files.lookup name).getD []
    { st with
      fs := { st.fs with files := setFile st.fs.files name (oldc ++ p) },
      size := st.size + p.length,
      handleWritten := st.handleWritten + p.length }

/-- `Logger.Write` (success path of the I/O): returns the new state, the
count and the error. -/
def Logger.write (l : Logger) (t : GoTime) (st : LJState) (p : FileData) :
    LJState × Nat × Option WErr :=
  if p.length > l.get_max_size then (st, 0, some .sizeExceeded)
  else (appendToFile (l.openPhase t st p.length) p, p.length, none)

/-- Iterate `write` over a list of payloads (all at the same instant, as in
the repository's clock-mocked tests), keeping only the state. -/
def runWrites (l : Logger) (t : GoTime) (st : LJState) : List FileData → LJState
  | [] => st
  | b :: bs => runWrites l t (l.write t st b).1 bs

/-- A fresh Logger over an empty directory: no files, no link, no handle. -/
def initState : LJState :=
  { fs := { files := [], link := none }, file := none, size := 0,
    lastOpened := none, handleWritten := 0, rotations := 0 }

/-! ## The tail of `Write` with explicit I/O outcomes (lines 123–129)

`w := bufio.NewWriter(l.file); n, err = w.Write(p); l.size += int64(n);
w.Flush(); return n, err` — the outcomes of the two I/O calls are parameters
here, so the returned values and the size update can be analysed under
failure. The on-disk content under a failed flush depends on the environment
and is not modelled. -/

/-- An abstract I/O error. -/
inductive IOErr where
  | err
deriving DecidableEq

/-- Outcome of the buffered path: the count and error returned by
`bufio.Writer.Write`, and the error returned by `bufio.Writer.Flush`. -/
structure BufioResult where
  n : Nat
  werr : Option IOErr
  ferr : Option IOErr

/-- `Logger.Write` with the buffered I/O outcome as a parameter: the
pre-check and open phase as in `Logger.write`, then the size counter grows by
the reported count and the call returns `(n, err)` from the buffered write —
the flush's result (`io.ferr`) is discarded by the code. -/
def Logger.writeBuf (l : Logger) (t : GoTime) (st : LJState) (p : FileData)
    (io : BufioResult) : LJState × Nat × Option IOErr :=
  if p.length > l.get_max_size then (st, 0, some .err)
  else
    ({ l.openPhase t st p.length with
        size := (l.openPhase t st p.length).size + io.n,
        handleWritten := (l.openPhase t st p.length).handleWritten + io.n },
     io.n, io.werr)

/-! ## HTTP basic authentication (`api` package) -/

/-- One `[[http.basic_authen]]` entry: a username and the MD5 hash string of
the password. -/
structure BasicAuthen where
  username : String
  password : String

/-- `api.authen`, with the MD5 hash function as an explicit parameter
(`utilities.StringToMD5String` wraps `crypto/md5`, an external primitive). -/
def authen (md5 : String → String) (authenList : List BasicAuthen)
    (username password : String) : Bool :=
  if authenList.length = 0 then true
  else authenList.any (fun v => v.username == username && v.password == md5 password)

/-- The decision an HTTP middleware takes on a request. -/
inductive MWDecision where
  | forwarded
  | unauthorized
deriving DecidableEq

/-- `api.ValidateMiddleware`, as the decision function on one request:
`creds` is the result of `r.BasicAuth()` (`none` when the header is absent
or malformed). When the configured list is empty the middleware returns a
handler that forwards unconditionally. -/
def ValidateMiddleware (md5 : String → String) (authenList : List BasicAuthen)
    (creds : Option (String × String)) : MWDecision :=
  if authenList.length = 0 then .forwarded
  else
    match creds with
    | some (username, password) =>
      if !(authen md5 authenList username password) then .unauthorized
      else .forwarded
    | none => .unauthorized

/-! ## `utilities.SanitizeFilename` -/

/-- The character class `[\x5C\x2F\x3F\x25\x2A\x3A\x7C\x22\x3E\x3C\x20]` of
the regular expression in `SanitizeFilename`. -/
def reservedChar (c : Char) : Bool :=
  c == '\x5C' || c == '/' || c == '?' || c == '%' || c == '*' || c == ':' ||
  c == '|' || c == '\x22' || c == '>' || c == '<' || c == ' '

/-- `utilities.SanitizeFilename`: `ReplaceAllString` of the single-character
class above with `"_"` replaces each matching character independently. -/
def SanitizeFilename (filename : String) : String :=
  String.mk (filename.data.map (fun c => if reservedChar c then '_' else c))

/-! ## Concrete fixtures (mirroring the repository's clock-mocked tests) -/

/-- The Logger of the repository's tests: destination `foobar.log`,
`megabyte` mocked to 1 and `MaxSize` 10 as in `TestAutoRotate`. -/
def cfgFoobar : Logger :=
  { Filename := "testdir/foobar.log", RotationTime := 0, MaxSize := 10,
    LocalTime := false, megabyte := 1, argv0Base := "app", tempDir := "/tmp" }

/-- The same Logger with `MaxSize` 5, as in `TestWriteTooLong`. -/
def cfgSmall : Logger := { cfgFoobar with MaxSize := 5 }

/-- 2009-11-17 00:10:00 UTC: the mocked test day at a cheap-to-evaluate
in-window instant (window 5 min, bucket 00:05:00). -/
def tSmall : GoTime := ⟨2009, 11, 17, 600000000000⟩

/-- The repository's mocked clock, 2009-11-17 20:34:58.651387237 UTC. -/
def tFake : GoTime := ⟨2009, 11, 17, 74098651387237⟩

/-! ## C10 -/

/-- C10: `SanitizeFilename` is idempotent, and its output contains none of
the reserved characters (backslash, slash, question mark, percent, asterisk,
colon, pipe, double quote, angle brackets, space). -/
theorem sanitizeFilename_idempotent_and_clean :
    (∀ s : String, SanitizeFilename (SanitizeFilename s) = SanitizeFilename s) ∧
    (∀ s : String, ∀ c ∈ (SanitizeFilename s).data, reservedChar c = false) := by
  have hpt : ∀ c : Char,
      (if reservedChar (if reservedChar c then '_' else c)
       then '_' else if reservedChar c then '_' else c) =
      (if reservedChar c then '_' else c) := by
    intro c
    by_cases h : reservedChar c = true
    · simp [h]
    · simp only [Bool.not_eq_true] at h
      simp [h]
  constructor
  · intro s
    show String.mk (List.map _ (List.map _ s.data)) = String.mk (List.map _ s.data)
    rw [List.map_map]
    congr 1
    apply List.map_congr_left
    intro c _
    exact hpt c
  · intro s c hc
    have hc' : c ∈ List.map (fun c => if reservedChar c then '_' else c) s.data := hc
    obtain ⟨x, _, hx⟩ := List.mem_map.mp hc'
    subst hx
    by_cases h : reservedChar x = true
    · simp [h]; decide
    · simp only [Bool.not_eq_true] at h
      simp [h]

/-! ## C9 -/

/-- C9: with an empty basic-authentication list, `authen` accepts every
username/password pair, and `ValidateMiddleware` forwards every request —
with or without an `Authorization` header — to the next handler. -/
theorem authen_empty_bypasses :
    (∀ (md5 : String → String) (u p : String), authen md5 [] u p = true) ∧
    (∀ (md5 : String → String) (creds : Option (String × String)),
       ValidateMiddleware md5 [] creds = .forwarded) := by
  exact ⟨fun _ _ _ => rfl, fun _ _ => rfl⟩

/-! ## C5 -/

/-- C5: a write longer than the maximum size fails with the size-exceeded
error, returns count 0, and leaves the entire state — logger fields and
filesystem alike — untouched (in particular no file is created). -/
theorem write_too_long (l : Logger) (t : GoTime) (st : LJState) (p : FileData)
    (h : p.length > l.get_max_size) :
    l.write t st p = (st, 0, some .sizeExceeded) := by
  unfold Logger.write
  rw [if_pos h]

/-- Witness for C5: the `TestWriteTooLong` scenario, `MaxSize` 5 bytes and an
18-byte payload. -/
theorem write_too_long_witness :
    (List.replicate 18 7).length > cfgSmall.get_max_size ∧
    cfgSmall.write tSmall initState (List.replicate 18 7) =
      (initState, 0, some .sizeExceeded) :=
  ⟨by decide, write_too_long cfgSmall tSmall initState (List.replicate 18 7) (by decide)⟩

/-! ## C7 -/

/-- C7 counterexample: the claim "on any I/O failure in the buffered write or
flush, Write returns the partial or zero count together with the error" is
false — `w.Flush()`'s return value is discarded (line 127), so a failure
only at flush yields a `nil` error. -/
theorem write_flush_error_dropped :
    ¬ (∀ (l : Logger) (t : GoTime) (st : LJState) (p : FileData) (io : BufioResult),
        p.length ≤ l.get_max_size → io.werr = none → io.ferr ≠ none →
        (l.writeBuf t st p io).2.2 ≠ none) := by
  intro h
  exact h cfgSmall tSmall initState [1] ⟨1, none, some .err⟩
    (by decide) rfl (by decide) (by decide)

/-- C7 amended: `Write` returns the count and the error of the buffered
write only; the flush's error is discarded, and the size counter grows by
the reported count even when the write failed (no rollback). On success
(`io = ⟨p.length, none, none⟩`) it therefore returns the full count and a
`nil` error. -/
theorem write_returns_buffered_write_result (l : Logger) (t : GoTime)
    (st : LJState) (p : FileData) (io : BufioResult)
    (h : p.length ≤ l.get_max_size) :
    (l.writeBuf t st p io).2.1 = io.n ∧
    (l.writeBuf t st p io).2.2 = io.werr ∧
    (l.writeBuf t st p io).1.size = (l.openPhase t st p.length).size + io.n := by
  unfold Logger.writeBuf
  rw [if_neg (by omega)]
  exact ⟨rfl, rfl, rfl⟩

/-- Witness for C7's amended theorem. -/
theorem write_returns_buffered_write_result_witness :
    ([1] : FileData).length ≤ cfgSmall.get_max_size ∧
    ((cfgSmall.writeBuf tSmall initState [1] ⟨1, none, some .err⟩).2.1 = 1 ∧
     (cfgSmall.writeBuf tSmall initState [1] ⟨1, none, some .err⟩).2.2 = none ∧
     (cfgSmall.writeBuf tSmall initState [1] ⟨1, none, some .err⟩).1.size =
       (cfgSmall.openPhase tSmall initState 1).size + 1) :=
  ⟨by decide,
   write_returns_buffered_write_result cfgSmall tSmall initState [1]
     ⟨1, none, some .err⟩ (by decide)⟩

/-! ## C8 -/

theorem stem_ext_length (b : String) :
    (stemOf b).length + (extOf b).length = b.length := by
  unfold stemOf extOf
  cases hs : splitLast '.' b.data with
  | none => rfl
  | some p =>
    obtain ⟨x, y⟩ := p
    have hxy := splitLast_eq '.' b.data x y hs
    show x.length + ('.' :: y).length = b.data.length
    rw [hxy, List.length_append]

theorem searchIdx_shape (l : Logger) (t : GoTime) (fs : FS) (wl : Nat) :
    ∀ fuel c, ∃ n, searchIdx l t fs wl c fuel = idxName l t n := by
  intro fuel
  induction fuel with
  | zero => intro c; exact ⟨c, rfl⟩
  | succ fuel ih =>
    intro c
    show ∃ n, (match statSize fs (idxName l t c) with
      | none => idxName l t c
      | some sz =>
        if sz + wl > l.get_max_size then searchIdx l t fs wl (c + 1) fuel
        else idxName l t c) = idxName l t n
    cases hs : statSize fs (idxName l t c) with
    | none => exact ⟨c, rfl⟩
    | some sz =>
      by_cases hgt : sz + wl > l.get_max_size
      · refine (ih (c + 1)).imp fun n hn => ?_
        show (if sz + wl > l.get_max_size then searchIdx l t fs wl (c + 1) fuel
          else idxName l t c) = idxName l t n
        rw [if_pos hgt]
        exact hn
      · refine ⟨c, ?_⟩
        show (if sz + wl > l.get_max_size then searchIdx l t fs wl (c + 1) fuel
          else idxName l t c) = idxName l t c
        rw [if_neg hgt]

theorem nameWithMid_length (l : Logger) (mid : String) (h : 3 ≤ mid.length) :
    l.get_filename.length < (nameWithMid l mid).length := by
  have hz : ∀ b : String,
      (stemOf b ++ "-" ++ mid ++ extOf b).length = b.length + 1 + mid.length := by
    intro b
    rw [String.length_append, String.length_append, String.length_append]
    have hse := stem_ext_length b
    have h1 : ("-" : String).length = 1 := rfl
    omega
  unfold nameWithMid joinPath dirOf baseOf
  cases hs : splitLast '/' l.get_filename.data with
  | none =>
    simp only [hs]
    rw [if_pos (Or.inr trivial), hz]
    omega
  | some p =>
    obtain ⟨b, a⟩ := p
    have hba := splitLast_eq '/' l.get_filename.data b a hs
    have hgl : l.get_filename.length = b.length + 1 + a.length := by
      have h3 : l.get_filename.length = l.get_filename.data.length := rfl
      rw [h3, hba, List.length_append]
      simp only [List.length_cons]
      omega
    have hma : (String.mk a).length = a.length := rfl
    have hmb : (String.mk b).length = b.length := rfl
    have hsl : ("/" : String).length = 1 := rfl
    simp only [hs]
    by_cases hd : String.mk b = "" ∨ String.mk b = "."
    · rw [if_pos hd, hz, hma]
      have hb1 : b.length ≤ 1 := by
        rcases hd with h1 | h1
        · have hb : b = ([] : List Char) := congrArg String.data h1
          simp [hb]
        · have hb : b = ['.'] := congrArg String.data h1
          simp [hb]
      omega
    · rw [if_neg hd, String.length_append, String.length_append, hz, hma, hmb, hsl]
      omega

theorem timestampStr_length (l : Logger) (t : GoTime) :
    3 ≤ (timestampStr l t).length := by
  unfold timestampStr
  by_cases h : l.get_rotation_time > 0
  · rw [if_pos h]; exact formatTS_length_ge _ _ _ _
  · rw [if_neg h]; exact formatTS_length_ge _ _ _ _

/-- C8: for every configuration, instant, filesystem and pending length, the
backup name `processName` computes is distinct from the destination path
itself — it always carries the inserted `-<timestamp>` (possibly `_<n>`)
segment — so the symlink created at the destination path never points at its
own path. -/
theorem processName_ne_get_filename (l : Logger) (t : GoTime) (fs : FS)
    (wl : Nat) : l.processName t fs wl ≠ l.get_filename := by
  have main : ∀ mid, 3 ≤ mid.length → nameWithMid l mid ≠ l.get_filename := by
    intro mid hm heq
    have hl := nameWithMid_length l mid hm
    rw [heq] at hl
    omega
  have hts := timestampStr_length l t
  show (match statSize fs (baseCandidate l t) with
    | none => baseCandidate l t
    | some sz =>
      if sz + wl > l.get_max_size then searchIdx l t fs wl 2 (fs.files.length + 1)
      else baseCandidate l t) ≠ l.get_filename
  cases hs : statSize fs (baseCandidate l t) with
  | none => exact main _ hts
  | some sz =>
    by_cases hgt : sz + wl > l.get_max_size
    · show (if sz + wl > l.get_max_size then searchIdx l t fs wl 2 (fs.files.length + 1)
        else baseCandidate l t) ≠ l.get_filename
      rw [if_pos hgt]
      obtain ⟨n, hn⟩ := searchIdx_shape l t fs wl (fs.files.length + 1) 2
      rw [hn]
      apply main
      show 3 ≤ (timestampStr l t ++ "_" ++ natDec n).length
      rw [String.length_append, String.length_append]
      omega
    · show (if sz + wl > l.get_max_size then searchIdx l t fs wl 2 (fs.files.length + 1)
        else baseCandidate l t) ≠ l.get_filename
      rw [if_neg hgt]
      exact main _ hts

/-! ## C3 -/

theorem get_rotation_time_pos (l : Logger) : 0 < l.get_rotation_time := by
  unfold Logger.get_rotation_time
  by_cases h : l.RotationTime ≤ 0
  · rw [if_pos h]; decide
  · rw [if_neg h]; omega

/-- C3 counterexample: at an instant that is exactly a window boundary after
midnight (window 5 min = 300·10⁹ ns, t = midnight + one window), the loop of
`processName` stops one window short: the computed bucket is midnight (0),
although the last boundary of the sequence midnight, midnight+w, … that does
not exceed t is t itself (`w * (t / w) = t`). -/
theorem rotationBucket_boundary_ce :
    rotationBucket 300000000000 300000000000 = 0 ∧
    300000000000 * (300000000000 / 300000000000) = 300000000000 := by
  exact ⟨rfl, by decide⟩

theorem bucketLoop_closed (W t : Nat) (hW : 0 < W) :
    ∀ fuel j, j ≤ (t - 1) / W → (t - 1) / W - j ≤ fuel →
      bucketLoop W t (W * j) fuel = W * ((t - 1) / W) := by
  intro fuel
  induction fuel with
  | zero =>
    intro j hj hfuel
    have hj' : j = (t - 1) / W := by omega
    subst hj'
    rfl
  | succ fuel ih =>
    intro j hj hfuel
    by_cases hje : j = (t - 1) / W
    · subst hje
      have hcond : ¬ (W * ((t - 1) / W) + W < t) := by
        intro hc
        have h1 : W * ((t - 1) / W) + W ≤ t - 1 := by omega
        have hcomm : W * ((t - 1) / W) = ((t - 1) / W) * W := Nat.mul_comm _ _
        have hsm : ((t - 1) / W + 1) * W = ((t - 1) / W) * W + W := Nat.succ_mul _ _
        have h2 : (t - 1) / W + 1 ≤ (t - 1) / W := by
          rw [Nat.le_div_iff_mul_le hW]
          omega
        omega
      show (if W * ((t - 1) / W) + W < t
        then bucketLoop W t (W * ((t - 1) / W) + W) fuel
        else W * ((t - 1) / W)) = W * ((t - 1) / W)
      rw [if_neg hcond]
    · have hjlt : j < (t - 1) / W := lt_of_le_of_ne hj hje
      have hk1 : 1 ≤ (t - 1) / W := by omega
      have hW1 : 1 * W ≤ t - 1 := (Nat.le_div_iff_mul_le hW).mp hk1
      have h1 : W * (j + 1) ≤ W * ((t - 1) / W) := Nat.mul_le_mul_left W (by omega)
      have h2 : ((t - 1) / W) * W ≤ t - 1 := Nat.div_mul_le_self _ _
      have hcomm : W * ((t - 1) / W) = ((t - 1) / W) * W := Nat.mul_comm _ _
      have hms : W * (j + 1) = W * j + W := Nat.mul_succ W j
      have hcond : W * j + W < t := by omega
      show (if W * j + W < t then bucketLoop W t (W * j + W) fuel else W * j) =
        W * ((t - 1) / W)
      rw [if_pos hcond]
      have hrw : W * j + W = W * (j + 1) := by omega
      rw [hrw]
      exact ih (j + 1) (by omega) (by omega)

/-- The bucket the loop actually computes: the last boundary strictly below
`t` (midnight, i.e. 0, when `t ≤ W` — in particular when `t` is midnight). -/
theorem rotationBucket_closed (W t : Nat) (hW : 0 < W) :
    rotationBucket W t = W * ((t - 1) / W) := by
  have hle : (t - 1) / W ≤ t := le_trans (Nat.div_le_self _ _) (by omega)
  have h := bucketLoop_closed W t hW t 0 (Nat.zero_le _) (by omega)
  simpa using h

theorem searchIdx_congr (l : Logger) (t1 t2 : GoTime) (fs : FS) (wl : Nat)
    (h : timestampStr l t1 = timestampStr l t2) :
    ∀ fuel c, searchIdx l t1 fs wl c fuel = searchIdx l t2 fs wl c fuel := by
  have hidx : ∀ n, idxName l t1 n = idxName l t2 n := by
    intro n
    unfold idxName
    rw [h]
  intro fuel
  induction fuel with
  | zero => intro c; exact hidx c
  | succ fuel ih =>
    intro c
    show (match statSize fs (idxName l t1 c) with
      | none => idxName l t1 c
      | some sz =>
        if sz + wl > l.get_max_size then searchIdx l t1 fs wl (c + 1) fuel
        else idxName l t1 c) =
      (match statSize fs (idxName l t2 c) with
      | none => idxName l t2 c
      | some sz =>
        if sz + wl > l.get_max_size then searchIdx l t2 fs wl (c + 1) fuel
        else idxName l t2 c)
    rw [hidx c]
    cases hs : statSize fs (idxName l t2 c) with
    | none => rfl
    | some sz =>
      show (if sz + wl > l.get_max_size then searchIdx l t1 fs wl (c + 1) fuel
          else idxName l t2 c) =
        (if sz + wl > l.get_max_size then searchIdx l t2 fs wl (c + 1) fuel
          else idxName l t2 c)
      by_cases hgt : sz + wl > l.get_max_size
      · rw [if_pos hgt, if_pos hgt]
        exact ih (c + 1)
      · rw [if_neg hgt, if_neg hgt]

theorem processName_congr (l : Logger) (t1 t2 : GoTime) (fs : FS) (wl : Nat)
    (h : timestampStr l t1 = timestampStr l t2) :
    l.processName t1 fs wl = l.processName t2 fs wl := by
  have hbc : baseCandidate l t1 = baseCandidate l t2 := by
    unfold baseCandidate
    rw [h]
  show (match statSize fs (baseCandidate l t1) with
    | none => baseCandidate l t1
    | some sz =>
      if sz + wl > l.get_max_size then searchIdx l t1 fs wl 2 (fs.files.length + 1)
      else baseCandidate l t1) =
    (match statSize fs (baseCandidate l t2) with
    | none => baseCandidate l t2
    | some sz =>
      if sz + wl > l.get_max_size then searchIdx l t2 fs wl 2 (fs.files.length + 1)
      else baseCandidate l t2)
  rw [hbc]
  cases hs : statSize fs (baseCandidate l t2) with
  | none => rfl
  | some sz =>
    show (if sz + wl > l.get_max_size then searchIdx l t1 fs wl 2 (fs.files.length + 1)
        else baseCandidate l t2) =
      (if sz + wl > l.get_max_size then searchIdx l t2 fs wl 2 (fs.files.length + 1)
        else baseCandidate l t2)
    by_cases hgt : sz + wl > l.get_max_size
    · rw [if_pos hgt, if_pos hgt]
      exact searchIdx_congr l t1 t2 fs wl h (fs.files.length + 1) 2
    · rw [if_neg hgt, if_neg hgt]

/-- C3 amended: the bucket is the last window boundary *strictly before* the
current instant (midnight when the instant lies within the first window —
in particular when the instant is midnight itself); when the instant is
exactly the k-th boundary after midnight the bucket is one window earlier,
not the instant itself. Consequently two Write calls on the same day whose
instants fall in the same left-open window `(k·w, (k+1)·w]` — equivalently,
with equal `(t-1)/w` — target the same backup filename. -/
theorem rotationBucket_amended (l : Logger) (y mo d t1 t2 : Nat) (fs : FS)
    (wl : Nat)
    (hsame : (t1 - 1) / (l.get_rotation_time * 60 * 1000000000) =
             (t2 - 1) / (l.get_rotation_time * 60 * 1000000000)) :
    rotationBucket (l.get_rotation_time * 60 * 1000000000) t1 =
      (l.get_rotation_time * 60 * 1000000000) *
        ((t1 - 1) / (l.get_rotation_time * 60 * 1000000000)) ∧
    l.processName ⟨y, mo, d, t1⟩ fs wl = l.processName ⟨y, mo, d, t2⟩ fs wl := by
  have hgrt := get_rotation_time_pos l
  have hW : 0 < l.get_rotation_time * 60 * 1000000000 := by positivity
  constructor
  · exact rotationBucket_closed _ _ hW
  · apply processName_congr
    unfold timestampStr
    rw [if_pos hgrt, if_pos hgrt]
    show formatTS y mo d (rotationBucket _ t1) = formatTS y mo d (rotationBucket _ t2)
    rw [rotationBucket_closed _ _ hW, rotationBucket_closed _ _ hW, hsame]

/-- Witness for C3's amended theorem: the mocked test instant and a second
instant of the same 5-minute window. -/
theorem rotationBucket_amended_witness :
    ((74098651387237 - 1) / (cfgFoobar.get_rotation_time * 60 * 1000000000) =
     (74000000000000 - 1) / (cfgFoobar.get_rotation_time * 60 * 1000000000)) ∧
    (rotationBucket (cfgFoobar.get_rotation_time * 60 * 1000000000) 74098651387237 =
      (cfgFoobar.get_rotation_time * 60 * 1000000000) *
        ((74098651387237 - 1) / (cfgFoobar.get_rotation_time * 60 * 1000000000)) ∧
     cfgFoobar.processName ⟨2009, 11, 17, 74098651387237⟩ ⟨[], none⟩ 0 =
       cfgFoobar.processName ⟨2009, 11, 17, 74000000000000⟩ ⟨[], none⟩ 0) :=
  ⟨by decide,
   rotationBucket_amended cfgFoobar 2009 11 17 74098651387237 74000000000000
     ⟨[], none⟩ 0 (by decide)⟩

/-! ## C4 -/

theorem str_data_inj {a b : String} (h : a.data = b.data) : a = b := by
  cases a with
  | mk d1 =>
    cases b with
    | mk d2 =>
      have hd : d1 = d2 := h
      rw [hd]

theorem str_append_cancel_left {a b c : String} (h : a ++ b = a ++ c) : b = c := by
  apply str_data_inj
  have hd := congrArg String.data h
  rw [String.data_append, String.data_append] at hd
  exact List.append_cancel_left hd

theorem str_append_cancel_right {a b c : String} (h : a ++ c = b ++ c) : a = b := by
  apply str_data_inj
  have hd := congrArg String.data h
  rw [String.data_append, String.data_append] at hd
  exact List.append_cancel_right hd

theorem nameWithMid_inj (l : Logger) {m1 m2 : String}
    (h : nameWithMid l m1 = nameWithMid l m2) : m1 = m2 := by
  unfold nameWithMid joinPath at h
  have hmid : ∀ {z1 z2 : String},
      stemOf (baseOf l.get_filename) ++ "-" ++ z1 ++ extOf (baseOf l.get_filename) =
      stemOf (baseOf l.get_filename) ++ "-" ++ z2 ++ extOf (baseOf l.get_filename) →
      z1 = z2 := by
    intro z1 z2 hz
    have h1 := str_append_cancel_right hz
    exact str_append_cancel_left h1
  by_cases hd : dirOf l.get_filename = "" ∨ dirOf l.get_filename = "."
  · rw [if_pos hd, if_pos hd] at h
    exact hmid h
  · rw [if_neg hd, if_neg hd] at h
    exact hmid (str_append_cancel_left h)

theorem idxName_inj (l : Logger) (t : GoTime) {n m : Nat}
    (h : idxName l t n = idxName l t m) : n = m := by
  unfold idxName at h
  have h1 := nameWithMid_inj l h
  have h2 := str_append_cancel_left h1
  exact natDec_injective h2

theorem lookup_mem_keys {ps : List (String × FileData)} {k : String} {v : FileData}
    (h : ps.lookup k = some v) : k ∈ ps.map Prod.fst := by
  induction ps with
  | nil => simp [List.lookup] at h
  | cons p ps ih =>
    obtain ⟨a, b⟩ := p
    by_cases he : k = a
    · simp [he]
    · have hbe : (k == a) = false := beq_false_of_ne he
      rw [List.lookup, hbe] at h
      simp only [List.map_cons, List.mem_cons]
      exact Or.inr (ih h)

theorem exists_free_idx (l : Logger) (t : GoTime) (fs : FS) (c : Nat) :
    ∃ j, c ≤ j ∧ j < c + (fs.files.length + 1) ∧
      statSize fs (idxName l t j) = none := by
  by_contra hcon
  push_neg at hcon
  have hmem : ∀ j, c ≤ j → j < c + (fs.files.length + 1) →
      idxName l t j ∈ fs.files.map Prod.fst := by
    intro j h1 h2
    have hne := hcon j h1 h2
    cases ho : fs.files.lookup (idxName l t j) with
    | none =>
      exfalso
      apply hne
      unfold statSize
      rw [ho]
      rfl
    | some v => exact lookup_mem_keys ho
  have hnodup : ((List.range' c (fs.files.length + 1)).map (idxName l t)).Nodup := by
    apply List.Nodup.map
    · intro x y hxy
      exact idxName_inj l t hxy
    · exact List.nodup_range' _ _
  have hsub : (List.range' c (fs.files.length + 1)).map (idxName l t) ⊆
      fs.files.map Prod.fst := by
    intro x hx
    obtain ⟨j, hj, hjx⟩ := List.mem_map.mp hx
    obtain ⟨hj1, hj2⟩ := List.mem_range'_1.mp hj
    subst hjx
    exact hmem j hj1 hj2
  have hlen := (List.subperm_of_subset hnodup hsub).length_le
  simp at hlen

/-- A name `<stem>-<ts>_<n><ext>` that exits the search loop: it does not
exist, or it exists with room for the pending write under the code's strict
comparison. -/
def goodIdx (l : Logger) (t : GoTime) (fs : FS) (wl : Nat) (n : Nat) : Prop :=
  statSize fs (idxName l t n) = none ∨
  ∃ sz, statSize fs (idxName l t n) = some sz ∧ sz + wl ≤ l.get_max_size

theorem searchIdx_found (l : Logger) (t : GoTime) (fs : FS) (wl : Nat) :
    ∀ fuel c, (∃ j, c ≤ j ∧ j < c + fuel ∧ statSize fs (idxName l t j) = none) →
    ∃ n, c ≤ n ∧ searchIdx l t fs wl c fuel = idxName l t n ∧
      goodIdx l t fs wl n ∧ ∀ m, c ≤ m → m < n → ¬ goodIdx l t fs wl m := by
  intro fuel
  induction fuel with
  | zero =>
    intro c hex
    obtain ⟨j, h1, h2, _⟩ := hex
    omega
  | succ fuel ih =>
    intro c hex
    cases hs : statSize fs (idxName l t c) with
    | none =>
      refine ⟨c, le_rfl, ?_, Or.inl hs, fun m hm1 hm2 => absurd hm1 (by omega)⟩
      show (match statSize fs (idxName l t c) with
        | none => idxName l t c
        | some sz =>
          if sz + wl > l.get_max_size then searchIdx l t fs wl (c + 1) fuel
          else idxName l t c) = idxName l t c
      rw [hs]
    | some sz =>
      by_cases hgt : sz + wl > l.get_max_size
      · have hnotc : ¬ goodIdx l t fs wl c := by
          intro hg
          rcases hg with hg | ⟨sz', hsz', hle⟩
          · rw [hs] at hg
            cases hg
          · rw [hs] at hsz'
            injection hsz' with hv
            omega
        have hex' : ∃ j, c + 1 ≤ j ∧ j < (c + 1) + fuel ∧
            statSize fs (idxName l t j) = none := by
          obtain ⟨j, hj1, hj2, hj3⟩ := hex
          have hjc : j ≠ c := by
            intro he
            subst he
            rw [hs] at hj3
            cases hj3
          exact ⟨j, by omega, by omega, hj3⟩
        obtain ⟨n, hn1, hn2, hn3, hn4⟩ := ih (c + 1) hex'
        refine ⟨n, by omega, ?_, hn3, ?_⟩
        · show (match statSize fs (idxName l t c) with
            | none => idxName l t c
            | some sz =>
              if sz + wl > l.get_max_size then searchIdx l t fs wl (c + 1) fuel
              else idxName l t c) = idxName l t n
          rw [hs]
          show (if sz + wl > l.get_max_size then searchIdx l t fs wl (c + 1) fuel
            else idxName l t c) = idxName l t n
          rw [if_pos hgt]
          exact hn2
        · intro m hm1 hm2
          by_cases hmc : m = c
          · subst hmc
            exact hnotc
          · exact hn4 m (by omega) hm2
      · refine ⟨c, le_rfl, ?_, Or.inr ⟨sz, hs, by omega⟩,
          fun m hm1 hm2 => absurd hm1 (by omega)⟩
        show (match statSize fs (idxName l t c) with
          | none => idxName l t c
          | some sz =>
            if sz + wl > l.get_max_size then searchIdx l t fs wl (c + 1) fuel
            else idxName l t c) = idxName l t c
        rw [hs]
        show (if sz + wl > l.get_max_size then searchIdx l t fs wl (c + 1) fuel
          else idxName l t c) = idxName l t c
        rw [if_neg hgt]

/-- C4 amended: the generator searches alternates only when the candidate
exists and its size plus the pending length *strictly exceeds* the maximum
(the code compares with `>`, not `≥`), and accepts the first `n ≥ 2` whose
name does not exist or whose size plus the pending length is *at most* the
maximum; otherwise — including the exact-fit case `size + pending = max` —
it returns the base candidate name. -/
theorem processName_spec (l : Logger) (t : GoTime) (fs : FS) (wl : Nat) :
    (statSize fs (baseCandidate l t) = none →
      l.processName t fs wl = baseCandidate l t) ∧
    (∀ sz, statSize fs (baseCandidate l t) = some sz →
      sz + wl ≤ l.get_max_size → l.processName t fs wl = baseCandidate l t) ∧
    (∀ sz, statSize fs (baseCandidate l t) = some sz →
      sz + wl > l.get_max_size →
      ∃ n, 2 ≤ n ∧ l.processName t fs wl = idxName l t n ∧
        goodIdx l t fs wl n ∧ ∀ m, 2 ≤ m → m < n → ¬ goodIdx l t fs wl m) := by
  refine ⟨?_, ?_, ?_⟩
  · intro hs
    show (match statSize fs (baseCandidate l t) with
      | none => baseCandidate l t
      | some sz =>
        if sz + wl > l.get_max_size then searchIdx l t fs wl 2 (fs.files.length + 1)
        else baseCandidate l t) = baseCandidate l t
    rw [hs]
  · intro sz hs hle
    show (match statSize fs (baseCandidate l t) with
      | none => baseCandidate l t
      | some sz =>
        if sz + wl > l.get_max_size then searchIdx l t fs wl 2 (fs.files.length + 1)
        else baseCandidate l t) = baseCandidate l t
    rw [hs]
    show (if sz + wl > l.get_max_size then searchIdx l t fs wl 2 (fs.files.length + 1)
      else baseCandidate l t) = baseCandidate l t
    rw [if_neg (by omega)]
  · intro sz hs hgt
    have hpn : l.processName t fs wl = searchIdx l t fs wl 2 (fs.files.length + 1) := by
      show (match statSize fs (baseCandidate l t) with
        | none => baseCandidate l t
        | some sz =>
          if sz + wl > l.get_max_size then searchIdx l t fs wl 2 (fs.files.length + 1)
          else baseCandidate l t) = searchIdx l t fs wl 2 (fs.files.length + 1)
      rw [hs]
      show (if sz + wl > l.get_max_size then searchIdx l t fs wl 2 (fs.files.length + 1)
        else baseCandidate l t) = searchIdx l t fs wl 2 (fs.files.length + 1)
      rw [if_pos hgt]
    obtain ⟨n, hn1, hn2, hn3, hn4⟩ :=
      searchIdx_found l t fs wl (fs.files.length + 1) 2 (exists_free_idx l t fs 2)
    exact ⟨n, hn1, hpn.trans hn2, hn3, hn4⟩

/-- Pre-seeded directory for the exact-fit counterexample: the base
candidate for `tSmall` exists holding 6 bytes; no symlink. -/
def fsC4 : FS := ⟨[("testdir/foobar-20091117_000500.log", [9, 9, 9, 9, 9, 9])], none⟩

set_option maxRecDepth 100000 in
/-- C4 counterexample: the candidate file exists with size 6, the pending
write is 4 bytes and 6 + 4 meets the maximum size (10), so the claim
prescribes searching and returning the first alternate `<stem>-<ts>_2<ext>`
(which does not exist); but the code compares with strict `>` and returns
the base candidate name. -/
theorem processName_exact_fit_ce :
    statSize fsC4 (baseCandidate cfgFoobar tSmall) = some 6 ∧
    6 + 4 ≥ cfgFoobar.get_max_size ∧
    statSize fsC4 (idxName cfgFoobar tSmall 2) = none ∧
    cfgFoobar.processName tSmall fsC4 4 = baseCandidate cfgFoobar tSmall ∧
    baseCandidate cfgFoobar tSmall ≠ idxName cfgFoobar tSmall 2 := by
  exact ⟨by decide, by decide, by decide, by decide, by decide⟩

set_option maxRecDepth 100000 in
/-- Witness for C4's amended theorem: with pending length 5 the candidate
strictly exceeds the maximum and the search returns an alternate name. -/
theorem processName_spec_witness :
    (statSize fsC4 (baseCandidate cfgFoobar tSmall) = some 6 ∧
     6 + 5 > cfgFoobar.get_max_size) ∧
    (∃ n, 2 ≤ n ∧ cfgFoobar.processName tSmall fsC4 5 = idxName cfgFoobar tSmall n ∧
      goodIdx cfgFoobar tSmall fsC4 5 n ∧
      ∀ m, 2 ≤ m → m < n → ¬ goodIdx cfgFoobar tSmall fsC4 5 m) :=
  ⟨⟨by decide, by decide⟩,
   (processName_spec cfgFoobar tSmall fsC4 5).2.2 6 (by decide) (by decide)⟩

/-! ## C2 -/

theorem openNew_link (l : Logger) (t : GoTime) (st : LJState) :
    (l.openNew t st).fs.link = some (l.processName t st.fs 0) ∧
    (l.openNew t st).lastOpened = some (l.processName t st.fs 0) := by
  unfold Logger.openNew
  cases hs : statSize st.fs (l.processName t st.fs 0) with
  | none => exact ⟨rfl, rfl⟩
  | some sz => exact ⟨rfl, rfl⟩

theorem rotate_link (l : Logger) (t : GoTime) (st : LJState) :
    (l.rotate t st).fs.link = (l.rotate t st).lastOpened ∧
    (l.rotate t st).lastOpened ≠ none := by
  unfold Logger.rotate
  obtain ⟨h1, h2⟩ :=
    openNew_link l t { (Logger.closeOp st) with rotations := st.rotations + 1 }
  rw [h1, h2]
  exact ⟨rfl, by simp⟩

theorem appendToFile_aux (st : LJState) (p : FileData) :
    (appendToFile st p).fs.link = st.fs.link ∧
    (appendToFile st p).lastOpened = st.lastOpened ∧
    (appendToFile st p).rotations = st.rotations := by
  unfold appendToFile
  cases hf : st.file with
  | none => exact ⟨rfl, rfl, rfl⟩
  | some name => exact ⟨rfl, rfl, rfl⟩

theorem openExistingOrNew_link (l : Logger) (t : GoTime) (st : LJState)
    (wl : Nat) :
    ((l.openExistingOrNew t st wl).fs.link =
        (l.openExistingOrNew t st wl).lastOpened ∧
     (l.openExistingOrNew t st wl).lastOpened ≠ none) ∨
    (l.openExistingOrNew t st wl).fs.link = st.fs.link := by
  cases hs : statSize st.fs (l.processName t st.fs wl) with
  | none =>
    have hred : l.openExistingOrNew t st wl = l.openNew t st := by
      unfold Logger.openExistingOrNew
      simp only [hs]
    rw [hred]
    left
    obtain ⟨h1, h2⟩ := openNew_link l t st
    rw [h1, h2]
    exact ⟨rfl, by simp⟩
  | some sz =>
    by_cases hge : sz + wl ≥ l.get_max_size
    · have hred : l.openExistingOrNew t st wl = l.rotate t st := by
        unfold Logger.openExistingOrNew
        simp only [hs]
        rw [if_pos hge]
      rw [hred]
      left
      exact rotate_link l t st
    · have hred : l.openExistingOrNew t st wl =
          { st with
              file := some (l.processName t st.fs wl)
              size := sz
              lastOpened := some (l.processName t st.fs wl)
              handleWritten := 0 } := by
        unfold Logger.openExistingOrNew
        simp only [hs]
        rw [if_neg hge]
      rw [hred]
      right
      rfl

theorem openPhase_link (l : Logger) (t : GoTime) (st : LJState) (wl : Nat) :
    ((l.openPhase t st wl).fs.link = (l.openPhase t st wl).lastOpened ∧
     (l.openPhase t st wl).lastOpened ≠ none) ∨
    (l.openPhase t st wl).fs.link = st.fs.link := by
  unfold Logger.openPhase
  by_cases hc : (l.openExistingOrNew t st wl).size + wl > l.get_max_size
  · rw [if_pos hc]
    left
    exact rotate_link l t _
  · rw [if_neg hc]
    exact openExistingOrNew_link l t st wl

/-- Pre-seeded state for the C2 counterexample: the base candidate file for
`tSmall` already exists with 3 bytes of room to spare, and no symbolic link
exists at the destination path. -/
def stSeeded : LJState :=
  { fs := ⟨[("testdir/foobar-20091117_000500.log", [9, 9, 9])], none⟩,
    file := none, size := 0, lastOpened := none, handleWritten := 0,
    rotations := 0 }

set_option maxRecDepth 100000 in
/-- C2 counterexample: from a directory already holding the candidate file
with room (3 bytes, max 10) and no destination symlink, a one-byte Write
succeeds through the append path of `openExistingOrNew`, which never touches
the symlink — after the successful Write the destination path is not a
symbolic link at all, hence does not resolve to the file just opened. -/
theorem write_no_symlink_ce :
    (cfgFoobar.write tSmall stSeeded [7]).2 = (1, none) ∧
    (cfgFoobar.write tSmall stSeeded [7]).1.lastOpened =
      some "testdir/foobar-20091117_000500.log" ∧
    (cfgFoobar.write tSmall stSeeded [7]).1.fs.link = none := by
  exact ⟨by decide, by decide, by decide⟩

/-- C2 amended: after every successful `Rotate` the destination symlink
points at the backup file most recently opened; after a successful `Write`
either the same holds, or the Write appended to an already-existing
candidate file through `openExistingOrNew`, which leaves the destination
link exactly as it was before the call (in particular absent if it never
existed). -/
theorem write_rotate_symlink_amended (l : Logger) (t : GoTime) (st : LJState)
    (p : FileData) (hsucc : (l.write t st p).2.2 = none) :
    ((l.rotate t st).fs.link = (l.rotate t st).lastOpened ∧
     (l.rotate t st).lastOpened ≠ none) ∧
    (((l.write t st p).1.fs.link = (l.write t st p).1.lastOpened ∧
      (l.write t st p).1.lastOpened ≠ none) ∨
     (l.write t st p).1.fs.link = st.fs.link) := by
  refine ⟨rotate_link l t st, ?_⟩
  by_cases hbig : p.length > l.get_max_size
  · exfalso
    unfold Logger.write at hsucc
    rw [if_pos hbig] at hsucc
    simp at hsucc
  · have hw : (l.write t st p).1 = appendToFile (l.openPhase t st p.length) p := by
      unfold Logger.write
      rw [if_neg hbig]
    rw [hw]
    obtain ⟨ha1, ha2, _⟩ := appendToFile_aux (l.openPhase t st p.length) p
    rw [ha1, ha2]
    exact openPhase_link l t st p.length

set_option maxRecDepth 100000 in
/-- Witness for C2's amended theorem, at a successful concrete Write. -/
theorem write_rotate_symlink_amended_witness :
    (cfgFoobar.write tSmall initState [1]).2.2 = none ∧
    (((cfgFoobar.rotate tSmall initState).fs.link =
        (cfgFoobar.rotate tSmall initState).lastOpened ∧
      (cfgFoobar.rotate tSmall initState).lastOpened ≠ none) ∧
     (((cfgFoobar.write tSmall initState [1]).1.fs.link =
         (cfgFoobar.write tSmall initState [1]).1.lastOpened ∧
       (cfgFoobar.write tSmall initState [1]).1.lastOpened ≠ none) ∨
      (cfgFoobar.write tSmall initState [1]).1.fs.link = initState.fs.link)) :=
  ⟨by decide,
   write_rotate_symlink_amended cfgFoobar tSmall initState [1] (by decide)⟩

/-! ## C6 -/

set_option maxRecDepth 100000 in
/-- C6 counterexample: after a second Write (3 bytes appended to an existing
3-byte file), the handle — freshly reopened by `openExistingOrNew` inside
that call — has received 3 bytes since it was opened, yet the size counter
is 6: on open the counter adopts the file's on-disk size, so it is not "the
number of bytes successfully written to that handle since it was opened". -/
theorem size_ne_bytes_since_open_ce :
    (runWrites cfgFoobar tSmall initState [[1, 2, 3], [4, 5, 6]]).file ≠ none ∧
    (runWrites cfgFoobar tSmall initState [[1, 2, 3], [4, 5, 6]]).size = 6 ∧
    (runWrites cfgFoobar tSmall initState [[1, 2, 3], [4, 5, 6]]).handleWritten
      = 3 := by
  exact ⟨by decide, by decide, by decide⟩

/-- The invariant the code actually maintains: whenever a handle is open,
the size counter equals the on-disk content length of the open file. -/
def SizeInv (st : LJState) : Prop :=
  ∀ name, st.file = some name → statSize st.fs name = some st.size

theorem lookup_setFile_self (files : List (String × FileData)) (name : String)
    (c : FileData) : (setFile files name c).lookup name = some c := by
  simp [setFile, List.lookup]

theorem openNew_sizeInv (l : Logger) (t : GoTime) (st : LJState) :
    SizeInv (l.openNew t st) := by
  cases hs : statSize st.fs (l.processName t st.fs 0) with
  | some sz =>
    have hred : l.openNew t st =
        { fs := { files := st.fs.files, link := some (l.processName t st.fs 0) }
          file := some (l.processName t st.fs 0)
          size := sz
          lastOpened := some (l.processName t st.fs 0)
          handleWritten := 0
          rotations := st.rotations } := by
      unfold Logger.openNew
      simp only [hs]
    rw [hred]
    unfold SizeInv
    intro name hname
    injection hname with h
    subst h
    exact hs
  | none =>
    have hred : l.openNew t st =
        { fs := { files := setFile st.fs.files (l.processName t st.fs 0) []
                  link := some (l.processName t st.fs 0) }
          file := some (l.processName t st.fs 0)
          size := 0
          lastOpened := some (l.processName t st.fs 0)
          handleWritten := 0
          rotations := st.rotations } := by
      unfold Logger.openNew
      simp only [hs]
    rw [hred]
    unfold SizeInv
    intro name hname
    injection hname with h
    subst h
    unfold statSize
    rw [lookup_setFile_self]
    rfl

theorem rotate_sizeInv (l : Logger) (t : GoTime) (st : LJState) :
    SizeInv (l.rotate t st) := by
  unfold Logger.rotate
  exact openNew_sizeInv l t _

theorem openExistingOrNew_sizeInv (l : Logger) (t : GoTime) (st : LJState)
    (wl : Nat) : SizeInv (l.openExistingOrNew t st wl) := by
  cases hs : statSize st.fs (l.processName t st.fs wl) with
  | none =>
    have hred : l.openExistingOrNew t st wl = l.openNew t st := by
      unfold Logger.openExistingOrNew
      simp only [hs]
    rw [hred]
    exact openNew_sizeInv l t st
  | some sz =>
    by_cases hge : sz + wl ≥ l.get_max_size
    · have hred : l.openExistingOrNew t st wl = l.rotate t st := by
        unfold Logger.openExistingOrNew
        simp only [hs]
        rw [if_pos hge]
      rw [hred]
      exact rotate_sizeInv l t st
    · have hred : l.openExistingOrNew t st wl =
          { st with
              file := some (l.processName t st.fs wl)
              size := sz
              lastOpened := some (l.processName t st.fs wl)
              handleWritten := 0 } := by
        unfold Logger.openExistingOrNew
        simp only [hs]
        rw [if_neg hge]
      rw [hred]
      unfold SizeInv
      intro name hname
      injection hname with h
      subst h
      exact hs

theorem openPhase_sizeInv (l : Logger) (t : GoTime) (st : LJState) (wl : Nat) :
    SizeInv (l.openPhase t st wl) := by
  unfold Logger.openPhase
  by_cases hc : (l.openExistingOrNew t st wl).size + wl > l.get_max_size
  · rw [if_pos hc]
    exact rotate_sizeInv l t _
  · rw [if_neg hc]
    exact openExistingOrNew_sizeInv l t st wl

theorem appendToFile_sizeInv (st : LJState) (p : FileData) (h : SizeInv st) :
    SizeInv (appendToFile st p) := by
  cases hf : st.file with
  | none =>
    have hred : appendToFile st p = st := by
      unfold appendToFile
      simp only [hf]
    rw [hred]
    exact h
  | some name0 =>
    have hred : appendToFile st p =
        { st with
            fs := { st.fs with
              files := setFile st.fs.files name0
                (((st.fs.files.lookup name0).getD []) ++ p) }
            size := st.size + p.length
            handleWritten := st.handleWritten + p.length } := by
      unfold appendToFile
      simp only [hf]
    rw [hred]
    unfold SizeInv
    intro name hname
    have hname' : st.file = some name := hname
    rw [hf] at hname'
    injection hname' with h2
    subst h2
    have hold := h name0 hf
    unfold statSize at hold ⊢
    cases hl : st.fs.files.lookup name0 with
    | none =>
      rw [hl] at hold
      simp at hold
    | some c =>
      rw [hl] at hold
      simp only [Option.map_some'] at hold
      injection hold with h3
      rw [lookup_setFile_self]
      simp only [hl, Option.getD_some, Option.map_some', Option.some.injEq,
        List.length_append]
      omega

theorem write_sizeInv (l : Logger) (t : GoTime) (st : LJState) (p : FileData)
    (h : SizeInv st) : SizeInv (l.write t st p).1 := by
  by_cases hbig : p.length > l.get_max_size
  · have hred : (l.write t st p).1 = st := by
      unfold Logger.write
      rw [if_pos hbig]
  
    rw [hred]
    exact h
  · have hred : (l.write t st p).1 = appendToFile (l.openPhase t st p.length) p := by
      unfold Logger.write
      rw [if_neg hbig]
    rw [hred]
    exact appendToFile_sizeInv _ _ (openPhase_sizeInv l t st p.length)

/-- C6 amended: the size counter tracks the on-disk content length of the
currently open file, not the bytes written through the current handle since
it was opened: it starts from the adopted on-disk size on every open
(`openExistingOrNew` append path, `openNew`) and grows with each write; the
invariant `SizeInv` holds initially and is preserved by Write, Rotate and
Close. -/
theorem sizeInv_amended :
    SizeInv initState ∧
    (∀ (l : Logger) (t : GoTime) (st : LJState) (p : FileData),
      SizeInv st → SizeInv (l.write t st p).1) ∧
    (∀ (l : Logger) (t : GoTime) (st : LJState), SizeInv (l.rotate t st)) ∧
    (∀ st : LJState, SizeInv (Logger.closeOp st)) := by
  refine ⟨?_, write_sizeInv, rotate_sizeInv, ?_⟩
  · intro name hname
    simp [initState] at hname
  · intro st name hname
    simp [Logger.closeOp] at hname

/-- Witness for C6's amended theorem: the invariant after a concrete Write,
with the hypothesis discharged by the theorem's own base case. -/
theorem sizeInv_amended_witness :
    SizeInv (cfgFoobar.write tSmall initState [1]).1 :=
  sizeInv_amended.2.1 cfgFoobar tSmall initState [1] sizeInv_amended.1

/-! ## C1 -/

theorem setFile_singleton (k : String) (c c' : FileData) :
    setFile [(k, c)] k c' = [(k, c')] := by
  simp [setFile]

/-- The clean single-file run of C1: the bucket candidate is the only file,
the destination link points at it, it is open, the size counter equals its
content length, and no rotation has happened. -/
def c1Inv (l : Logger) (t : GoTime) (data : FileData) (st : LJState) : Prop :=
  st.fs.files = [(baseCandidate l t, data)] ∧
  st.fs.link = some (baseCandidate l t) ∧
  st.file = some (baseCandidate l t) ∧
  st.size = data.length ∧
  st.rotations = 0

theorem c1_write_step (l : Logger) (t : GoTime) (st : LJState)
    (data p : FileData) (hinv : c1Inv l t data st)
    (hlt : data.length + p.length < l.get_max_size) :
    c1Inv l t (data ++ p) (l.write t st p).1 := by
  obtain ⟨hfiles, hlink, hfile, hsize, hrot⟩ := hinv
  have hstat : statSize st.fs (baseCandidate l t) = some data.length := by
    unfold statSize
    rw [hfiles]
    simp [List.lookup]
  have hwl : ¬ (p.length > l.get_max_size) := by omega
  have hpn : l.processName t st.fs p.length = baseCandidate l t :=
    (processName_spec l t st.fs p.length).2.1 data.length hstat (by omega)
  have hoe : l.openExistingOrNew t st p.length =
      { st with
          file := some (baseCandidate l t)
          size := data.length
          lastOpened := some (baseCandidate l t)
          handleWritten := 0 } := by
    have hstat' : statSize st.fs (l.processName t st.fs p.length) =
        some data.length := by
      rw [hpn]
      exact hstat
    unfold Logger.openExistingOrNew
    simp only [hstat']
    rw [if_neg (by omega), hpn]
  have hop : l.openPhase t st p.length =
      { st with
          file := some (baseCandidate l t)
          size := data.length
          lastOpened := some (baseCandidate l t)
          handleWritten := 0 } := by
    unfold Logger.openPhase
    rw [hoe]
    have hcond : ¬ (({ st with
        file := some (baseCandidate l t)
        size := data.length
        lastOpened := some (baseCandidate l t)
        handleWritten := 0 } : LJState).size + p.length > l.get_max_size) := by
      show ¬ (data.length + p.length > l.get_max_size)
      omega
    rw [if_neg hcond]
  have hw1 : (l.write t st p).1 = appendToFile (l.openPhase t st p.length) p := by
    unfold Logger.write
    rw [if_neg hwl]
  rw [hw1, hop]
  refine ⟨?_, hlink, rfl, ?_, hrot⟩
  · show setFile st.fs.files (baseCandidate l t)
        (((st.fs.files.lookup (baseCandidate l t)).getD []) ++ p) =
      [(baseCandidate l t, data ++ p)]
    rw [hfiles]
    have hlk : ([(baseCandidate l t, data)].lookup (baseCandidate l t)) =
        some data := by
      simp [List.lookup]
    rw [hlk]
    exact setFile_singleton _ _ _
  · show data.length + p.length = (data ++ p).length
    rw [List.length_append]

theorem c1_first_step (l : Logger) (t : GoTime) (p : FileData)
    (hlt : p.length < l.get_max_size) :
    c1Inv l t p (l.write t initState p).1 := by
  have hstat : statSize initState.fs (baseCandidate l t) = none := rfl
  have hpn : l.processName t initState.fs p.length = baseCandidate l t :=
    (processName_spec l t initState.fs p.length).1 hstat
  have hpn0 : l.processName t initState.fs 0 = baseCandidate l t :=
    (processName_spec l t initState.fs 0).1 hstat
  have honew : l.openNew t initState =
      { fs := { files := setFile [] (baseCandidate l t) []
                link := some (baseCandidate l t) }
        file := some (baseCandidate l t)
        size := 0
        lastOpened := some (baseCandidate l t)
        handleWritten := 0
        rotations := 0 } := by
    unfold Logger.openNew
    rw [hpn0]
    simp only [hstat]
    rfl
  have hoe : l.openExistingOrNew t initState p.length = l.openNew t initState := by
    unfold Logger.openExistingOrNew
    rw [hpn]
    simp only [hstat]
  have hop : l.openPhase t initState p.length = l.openNew t initState := by
    unfold Logger.openPhase
    rw [hoe]
    have hcond : ¬ ((l.openNew t initState).size + p.length > l.get_max_size) := by
      rw [honew]
      show ¬ (0 + p.length > l.get_max_size)
      omega
    rw [if_neg hcond]
  have hw1 : (l.write t initState p).1 =
      appendToFile (l.openPhase t initState p.length) p := by
    unfold Logger.write
    rw [if_neg (by omega)]
  rw [hw1, hop, honew]
  have hsf : setFile [] (baseCandidate l t) [] = [(baseCandidate l t, [])] := rfl
  refine ⟨?_, rfl, rfl, ?_, rfl⟩
  · show setFile (setFile [] (baseCandidate l t) []) (baseCandidate l t)
        ((((setFile [] (baseCandidate l t) []).lookup (baseCandidate l t)).getD [])
          ++ p) = [(baseCandidate l t, p)]
    rw [hsf]
    have hlk : ([(baseCandidate l t, ([] : FileData))].lookup (baseCandidate l t)) =
        some [] := by
      simp [List.lookup]
    rw [hlk]
    exact setFile_singleton _ _ _
  · show 0 + p.length = p.length
    omega

theorem c1_run (l : Logger) (t : GoTime) :
    ∀ (bs : List FileData) (data : FileData) (st : LJState),
      c1Inv l t data st →
      data.length + (bs.map List.length).sum < l.get_max_size →
      c1Inv l t (data ++ bs.flatten) (runWrites l t st bs) := by
  intro bs
  induction bs with
  | nil =>
    intro data st hinv hsum
    simpa using hinv
  | cons b bs ih =>
    intro data st hinv hsum
    simp only [List.map_cons, List.sum_cons] at hsum
    have hstep := c1_write_step l t st data b hinv (by omega)
    have hnext := ih (data ++ b) (l.write t st b).1 hstep
      (by rw [List.length_append]; omega)
    show c1Inv l t (data ++ (b :: bs).flatten) (runWrites l t (l.write t st b).1 bs)
    have hfl : data ++ (b :: bs).flatten = (data ++ b) ++ bs.flatten := by
      rw [List.flatten_cons, List.append_assoc]
    rw [hfl]
    exact hnext

/-- C1: with the clock fixed (as in the repository's clock-mocked tests), a
sequence of Writes, each of length at most the maximum size, whose
cumulative size stays strictly below the maximum, performs no rotation, and
the file the destination symlink resolves to finally contains exactly the
concatenation of all written byte sequences in order. -/
theorem write_sequence_no_rotation (l : Logger) (t : GoTime)
    (bs : List FileData) (hne : bs ≠ [])
    (hlen : ∀ b ∈ bs, b.length ≤ l.get_max_size)
    (hcum : (bs.map List.length).sum < l.get_max_size) :
    (runWrites l t initState bs).rotations = 0 ∧
    ∃ target, (runWrites l t initState bs).fs.link = some target ∧
      (runWrites l t initState bs).fs.files.lookup target = some bs.flatten := by
  cases bs with
  | nil => exact absurd rfl hne
  | cons b bs =>
    simp only [List.map_cons, List.sum_cons] at hcum
    have hfirst := c1_first_step l t b (by omega)
    have hrun := c1_run l t bs b (l.write t initState b).1 hfirst (by omega)
    have hgoal : c1Inv l t (b ++ bs.flatten) (runWrites l t initState (b :: bs)) :=
      hrun
    obtain ⟨hfiles, hlink, hfile, hsize, hrot⟩ := hgoal
    refine ⟨hrot, baseCandidate l t, hlink, ?_⟩
    rw [hfiles, List.flatten_cons]
    simp [List.lookup]

set_option maxRecDepth 100000 in
/-- Witness for C1, on the concrete test Logger with two writes. -/
theorem write_sequence_no_rotation_witness :
    (([[1], [2, 3]] : List FileData) ≠ [] ∧
     (∀ b ∈ ([[1], [2, 3]] : List FileData), b.length ≤ cfgFoobar.get_max_size) ∧
     (([[1], [2, 3]] : List FileData).map List.length).sum <
       cfgFoobar.get_max_size) ∧
    ((runWrites cfgFoobar tSmall initState [[1], [2, 3]]).rotations = 0 ∧
     ∃ target,
       (runWrites cfgFoobar tSmall initState [[1], [2, 3]]).fs.link = some target ∧
       (runWrites cfgFoobar tSmall initState [[1], [2, 3]]).fs.files.lookup target =
         some ([[1], [2, 3]] : List FileData).flatten) :=
  ⟨⟨by decide, by decide, by decide⟩,
   write_sequence_no_rotation cfgFoobar tSmall [[1], [2, 3]]
     (by decide) (by decide) (by decide)⟩
